import Mathlib

/-!
Shallow embedding of the two BTVNanoCommissioning validation workflows
(workflows/ctag_eWc_valid_sf.py and workflows/ttdilep_valid_sf.py) and
proofs about their event-selection, trigger, weight and histogram-fill
logic.  Machine floats are modelled by the rationals; awkward-array
option types are modelled by Option; per-event arrays by lists.
-/

namespace BTV

/-- Elementwise logical AND of awkward boolean arrays at one event:
a missing operand makes the result missing. -/
def akAnd : Option Bool → Option Bool → Option Bool
  | some a, some b => some (a && b)
  | _, _ => none

/-- ak.fill_none with fill value False: a missing entry becomes False. -/
def fillNone : Option Bool → Bool
  | some b => b
  | none => false

/-- The ten per-event requirements combined in ctag_eWc_valid_sf.py,
lines 163-174. -/
structure CtagReqs where
  req_trig : Option Bool
  req_lumi : Option Bool
  req_ele : Option Bool
  req_jets : Option Bool
  req_softmu : Option Bool
  req_mujet : Option Bool
  req_Wmass : Option Bool
  req_dilepveto : Option Bool
  req_QCDveto : Option Bool
  req_pTratio : Option Bool
deriving DecidableEq

/-- event_level of ctag_eWc_valid_sf.py (lines 163-175): the AND of the
ten requirements followed by ak.fill_none(event_level, False). -/
def ctagEventLevel (rq : CtagReqs) : Bool :=
  fillNone (akAnd (akAnd (akAnd (akAnd (akAnd (akAnd (akAnd (akAnd (akAnd
    rq.req_trig rq.req_lumi) rq.req_ele) rq.req_jets) rq.req_softmu)
    rq.req_mujet) rq.req_Wmass) rq.req_dilepveto) rq.req_QCDveto) rq.req_pTratio)

/-- The six per-event requirements combined in ttdilep_valid_sf.py,
lines 127-129. -/
structure TtdReqs where
  req_trig : Option Bool
  req_lumi : Option Bool
  req_muon : Option Bool
  req_ele : Option Bool
  req_jets : Option Bool
  req_opposite_charge : Option Bool
deriving DecidableEq

/-- event_level of ttdilep_valid_sf.py (lines 127-130): the AND of the six
requirements followed by ak.fill_none(event_level, False). -/
def ttdEventLevel (rq : TtdReqs) : Bool :=
  fillNone (akAnd (akAnd (akAnd (akAnd (akAnd
    rq.req_trig rq.req_lumi) rq.req_muon) rq.req_ele) rq.req_jets)
    rq.req_opposite_charge)

/-- req_trig accumulation (both workflows): starting from an all-false
array of batch length, OR in each present trigger array. -/
def reqTrig (n : Nat) (present : List (List Bool)) : List Bool :=
  present.foldl (fun acc t => List.zipWith (fun a b => a || b) acc t)
    (List.replicate n false)

/-- The HLT block of both workflows (ctag lines 86-99, ttdilep lines
81-94).  Each requested path is none when absent from the batch schema,
otherwise some per-event array.  When every path is absent a ValueError
is raised; otherwise processing continues, the Bool flag records whether
the some-but-not-all-absent diagnostic print fires, and req_trig is the
OR of the present paths. -/
def processHLT (n : Nat) (trigs : List (Option (List Bool))) :
    Except String (Bool × List Bool) :=
  if trigs.all (fun t => t.isNone) then
    Except.error ("HLT paths are all invalid")
  else
    Except.ok (trigs.any (fun t => t.isNone), reqTrig n (trigs.filterMap id))

/-- The per-jet fields of events.Jet used by the modelled histograms and
scale-factor lookups. -/
structure Jet where
  pt : ℚ
  hadronFlavour : ℚ
  partonFlavour : ℚ
  btagDeepFlavCvL : ℚ
  btagDeepFlavCvB : ℚ
deriving DecidableEq, Inhabited

/-- genflavor and smflav (ctag lines 240-249, ttdilep lines 175-179):
zeros for real data, otherwise hadronFlavour plus 1 when both parton and
hadron flavour vanish. -/
def genflavor (isRealData : Bool) (j : Jet) : ℚ :=
  if isRealData then 0
  else j.hadronFlavour + (if j.partonFlavour = 0 ∧ j.hadronFlavour = 0 then 1 else 0)

/-- np.where(discr < 0, -0.2, discr) applied to every discriminant
histogram fill value. -/
def clipDiscr (d : ℚ) : ℚ := if d < 0 then -(1 / 5) else d

/-- Key set of the populated per-jet scale-factor dicts (jetsfs_c[0] in
ctag, jetsfs_c[i] for i = 0, 1 in ttdilep), in insertion order. -/
def sfKeys : List String := [("SF"), ("SFup"), ("SFdn")]

/-- Key set of disc_list[...][1] in ctag_eWc_valid_sf.py: jetsfs_c is a
collections.defaultdict(dict) and index 1 is never populated, so the
subleading-jet systematics loop (line 436) iterates over an empty dict. -/
def sfKeysSubleading : List String := []

/-- One fill of a (flav, syst, discr) discriminant histogram. -/
structure Fill where
  flav : ℚ
  syst : String
  discr : ℚ
  weight : ℚ
deriving DecidableEq

/-- One fill of a (flav, value) jet-kinematic histogram. -/
structure KFill where
  flav : ℚ
  value : ℚ
  weight : ℚ
deriving DecidableEq

/-- One event of a ctag_eWc batch, carrying the per-event quantities the
modelled outputs depend on.  Every selection requirement, the combined
weight entry, osss and the selected-object collections are functions of
this event alone in the source, so they appear as per-event fields:
weight is this event entry of weights.weight() and sjets and mujet are
this event rows of event_jet and mu_jet[:, 0]. -/
structure CtagEv where
  genWeight : ℚ
  reqs : CtagReqs
  weight : ℚ
  osss : ℚ
  sjets : List Jet
  mujet : Jet
deriving DecidableEq

/-- Masking a per-event array by event_level: keep the events whose
combined requirement mask is True. -/
def selEvents (evs : List CtagEv) : List CtagEv :=
  evs.filter (fun e => ctagEventLevel e.reqs)

/-- output sumw (ctag lines 73-76, ttdilep lines 68-71): the batch event
count for real data, ak.sum(events.genWeight) for simulation, computed
before any selection. -/
def sumw (isRealData : Bool) (evs : List CtagEv) : ℚ :=
  if isRealData then (evs.length : ℚ) else (evs.map (fun e => e.genWeight)).sum

/-- Concatenation of the rows of a jagged array (helpers.func.flatten). -/
def flatten {α : Type} (xss : List (List α)) : List α :=
  xss.foldr (fun a b => a ++ b) []

/-- ak.broadcast_arrays(weights, jagged)[0]: replicate each event scalar
weight across that event jagged row. -/
def broadcast_arrays (ws : List ℚ) (vals : List (List ℚ)) : List (List ℚ) :=
  List.zipWith (fun w vs => vs.map (fun _ => w)) ws vals

/-- The jet_pt histogram fill of ctag_eWc_valid_sf.py (lines 363-372):
flattened genflavor and jet pt, with the per-event weight
weights.weight()[event_level] * osss broadcast to the jagged jet shape
and flattened. -/
def fillsJetPt (isRealData : Bool) (evs : List CtagEv) : List KFill :=
  let sel := selEvents evs
  let flavs := flatten (sel.map (fun e => e.sjets.map (fun j => genflavor isRealData j)))
  let vals := flatten (sel.map (fun e => e.sjets.map (fun j => j.pt)))
  let wts := flatten (broadcast_arrays (sel.map (fun e => e.weight * e.osss))
    (sel.map (fun e => e.sjets.map (fun j => j.pt))))
  List.zipWith (fun p w => { flav := p.1, value := p.2, weight := w })
    (List.zipWith (fun fl v => (fl, v)) flavs vals) wts

/-- The btagDeepFlavCvL_0 histogram fills of ctag_eWc_valid_sf.py (lines
396-420): one noSF fill with the bare weight, and for simulation with
corrections one fill per key of disc_list[btagDeepFlavCvL][0] with the
weight multiplied by that per-jet scale factor; the fill value is the
clipped discriminant while the scale-factor lookup sf receives the
unclipped discriminants of the muon jet. -/
def fillsDeepFlavCvL0 (isRealData isCorr : Bool) (sf : String → ℚ → ℚ → ℚ → ℚ)
    (evs : List CtagEv) : List Fill :=
  let sel := selEvents evs
  (sel.map (fun e =>
    { flav := genflavor isRealData e.mujet, syst := ("noSF"),
      discr := clipDiscr e.mujet.btagDeepFlavCvL,
      weight := e.weight * e.osss })) ++
  (if !isRealData && isCorr then
    flatten (sfKeys.map (fun s => sel.map (fun e =>
      { flav := genflavor isRealData e.mujet, syst := s,
        discr := clipDiscr e.mujet.btagDeepFlavCvL,
        weight := e.weight *
          sf s e.mujet.hadronFlavour e.mujet.btagDeepFlavCvL e.mujet.btagDeepFlavCvB *
          e.osss })))
  else [])

/-- The btagDeepFlavCvL_1 histogram fills of ctag_eWc_valid_sf.py (lines
421-448): guarded by all(i > 1 for i in njet) over the selected events;
inside the guard the subleading jet sjets[:, 1] is filled with noSF and
with one fill per key of the (empty) dict disc_list[btagDeepFlavCvL][1]. -/
def fillsDeepFlavCvL1 (isRealData isCorr : Bool) (sf : String → ℚ → ℚ → ℚ → ℚ)
    (evs : List CtagEv) : List Fill :=
  let sel := selEvents evs
  let njet := sel.map (fun e => e.sjets.length)
  if njet.all (fun i => decide (1 < i)) then
    (sel.map (fun e =>
      { flav := genflavor isRealData (e.sjets.getD 1 default), syst := ("noSF"),
        discr := clipDiscr (e.sjets.getD 1 default).btagDeepFlavCvL,
        weight := e.weight * e.osss })) ++
    (if !isRealData && isCorr then
      flatten (sfKeysSubleading.map (fun s => sel.map (fun e =>
        { flav := genflavor isRealData (e.sjets.getD 1 default), syst := s,
          discr := clipDiscr (e.sjets.getD 1 default).btagDeepFlavCvL,
          weight := e.weight *
            sf s (e.sjets.getD 1 default).hadronFlavour
              (e.sjets.getD 1 default).btagDeepFlavCvL
              (e.sjets.getD 1 default).btagDeepFlavCvB *
            e.osss })))
    else [])
  else []

/-- Content of one histogram bin [lo, hi) of a discriminant histogram:
the sum of the weights of the fills whose value lands in the bin. -/
def binWeight (lo hi : ℚ) (fills : List Fill) : ℚ :=
  ((fills.filter (fun f => decide (lo ≤ f.discr) && decide (f.discr < hi))).map
    (fun f => f.weight)).sum

/-- Content of one histogram bin [lo, hi) of a jet-kinematic histogram. -/
def kbinWeight (lo hi : ℚ) (fills : List KFill) : ℚ :=
  ((fills.filter (fun f => decide (lo ≤ f.value) && decide (f.value < hi))).map
    (fun f => f.weight)).sum

/-- One event of a ttdilep batch: the six requirements, the combined
weight entry and this event row of the (already truncated) sjets. -/
structure TtdEv where
  reqs : TtdReqs
  weight : ℚ
  sjets : List Jet
deriving DecidableEq

/-- event_level masking for the ttdilep batch. -/
def ttdSel (evs : List TtdEv) : List TtdEv :=
  evs.filter (fun e => ttdEventLevel e.reqs)

/-- The btagDeepFlavCvL_i histogram fills of ttdilep_valid_sf.py (lines
293-325) for jet index i of sjets[:, :2]: one noSF fill with the bare
per-event weight and, for simulation with corrections, one fill per key
of disc_list[btagDeepFlavCvL][i] with the weight multiplied by that
scale factor; fill values are clipped, lookups receive the unclipped
discriminants. -/
def fillsTtdDeepFlavCvL (i : Nat) (isRealData isCorr : Bool)
    (sf : String → ℚ → ℚ → ℚ → ℚ) (evs : List TtdEv) : List Fill :=
  let sel := ttdSel evs
  (sel.map (fun e =>
    { flav := genflavor isRealData ((e.sjets.take 2).getD i default), syst := ("noSF"),
      discr := clipDiscr ((e.sjets.take 2).getD i default).btagDeepFlavCvL,
      weight := e.weight })) ++
  (if !isRealData && isCorr then
    flatten (sfKeys.map (fun s => sel.map (fun e =>
      { flav := genflavor isRealData ((e.sjets.take 2).getD i default), syst := s,
        discr := clipDiscr ((e.sjets.take 2).getD i default).btagDeepFlavCvL,
        weight := e.weight *
          sf s ((e.sjets.take 2).getD i default).hadronFlavour
            ((e.sjets.take 2).getD i default).btagDeepFlavCvL
            ((e.sjets.take 2).getD i default).btagDeepFlavCvB })))
  else [])

/-- coffea.analysis_tools.Weights: named multiplicative per-event weight
components over a batch of a fixed size. -/
structure Weights where
  size : Nat
  components : List (String × List ℚ)
deriving DecidableEq

/-- Weights.add: register one more named component. -/
def Weights.add (w : Weights) (nm : String) (arr : List ℚ) : Weights :=
  { w with components := w.components ++ [(nm, arr)] }

/-- Weights.weight(): the elementwise product of all registered
components, starting from an all-ones array of the batch size. -/
def Weights.weight (w : Weights) : List ℚ :=
  w.components.foldl (fun acc c => List.zipWith (fun a b => a * b) acc c.2)
    (List.replicate w.size 1)

/-- The per-event input arrays of the weight-registration block of
ctag_eWc_valid_sf.py (lines 203-238). -/
structure CtagWeightIn where
  genWeight : List ℚ
  puweight : List ℚ
  lep1sf : List ℚ
  lep2sf : List ℚ
  event_level : List Bool
deriving DecidableEq

/-- np.where(mask, a, dflt) on per-event arrays. -/
def npWhere (mask : List Bool) (a : List ℚ) (dflt : ℚ) : List ℚ :=
  List.zipWith (fun m x => if m then x else dflt) mask a

/-- The weight-registration block of ctag_eWc_valid_sf.py (lines
203-238): genweight for simulation, and puweight plus the two
event_level-masked lepton scale factors for simulation with corrections
enabled. -/
def ctagWeights (isRealData isCorr : Bool) (n : Nat) (inp : CtagWeightIn) : Weights :=
  let w : Weights := { size := n, components := [] }
  let w := if !isRealData then w.add ("genweight") inp.genWeight else w
  if !isRealData && isCorr then
    ((w.add ("puweight") inp.puweight).add
      ("lep1sf") (npWhere inp.event_level inp.lep1sf 1)).add
      ("lep2sf") (npWhere inp.event_level inp.lep2sf 1)
  else w

/-- A muon of the ttdilep batch: pt plus the value of the external
mu_idiso predicate on it. -/
structure MuonRec where
  pt : ℚ
  idiso : Bool
deriving DecidableEq

/-- An electron of the ttdilep batch: pt plus the value of the external
ele_cuttightid predicate on it. -/
structure ElectronRec where
  pt : ℚ
  cuttightid : Bool
deriving DecidableEq

/-- The mutable part of the ttdilep event batch: the per-event Muon,
Electron and Jet collections plus a representative scalar field. -/
structure TtdBatch where
  Muon : List (List (Option MuonRec))
  Electron : List (List (Option ElectronRec))
  Jet : List (List Jet)
  run : List ℚ
deriving DecidableEq

/-- ak.pad_none(arr, n, axis=1): pad each row with missing entries up to
length n. -/
def pad_none {α : Type} (n : Nat) (l : List (Option α)) : List (Option α) :=
  l ++ List.replicate (n - l.length) none

/-- The muon cut of ttdilep_valid_sf.py line 99: pt > 30 and mu_idiso;
a padded (missing) muon never passes. -/
def muonCut (m : Option MuonRec) : Bool :=
  match m with
  | some mu => decide (30 < mu.pt) && mu.idiso
  | none => false

/-- The electron cut of ttdilep_valid_sf.py line 107: pt > 30 and
ele_cuttightid. -/
def electronCut (el : Option ElectronRec) : Bool :=
  match el with
  | some e => decide (30 < e.pt) && e.cuttightid
  | none => false

/-- Lines 98-102 of ttdilep_valid_sf.py: events.Muon is overwritten with
the filtered, pad_none-padded collection, and req_muon counts the
surviving muons of the overwritten collection. -/
def ttdMuonStep (b : TtdBatch) : TtdBatch × List Bool :=
  let newMuon := b.Muon.map (fun ms => pad_none 1 (ms.filter muonCut))
  ({ b with Muon := newMuon },
   newMuon.map (fun ms => (ms.countP (fun m => m.isSome)) == 1))

/-- Lines 106-110 of ttdilep_valid_sf.py: events.Electron is overwritten
likewise. -/
def ttdElectronStep (b : TtdBatch) : TtdBatch × List Bool :=
  let newElectron := b.Electron.map (fun es => pad_none 1 (es.filter electronCut))
  ({ b with Electron := newElectron },
   newElectron.map (fun es => (es.countP (fun e => e.isSome)) == 1))

/-- The lepton object-selection step of ttdilep_valid_sf.py (lines
96-110): both overwriting steps in source order, returning the updated
batch and the two requirement masks. -/
def ttdLeptonSelection (b : TtdBatch) : TtdBatch × List Bool × List Bool :=
  let mz := ttdMuonStep b
  let ez := ttdElectronStep mz.1
  (ez.1, mz.2, ez.2)

/-- A charm jet with positive discriminants. -/
def jA : Jet :=
  { pt := 50, hadronFlavour := 4, partonFlavour := 4,
    btagDeepFlavCvL := 1, btagDeepFlavCvB := 1 }

/-- A jet whose CvL discriminant carries the negative untagged sentinel. -/
def jNeg : Jet :=
  { pt := 40, hadronFlavour := 5, partonFlavour := 5,
    btagDeepFlavCvL := -1, btagDeepFlavCvB := -1 }

/-- All ten ctag requirements passing. -/
def passReqs : CtagReqs :=
  { req_trig := some true, req_lumi := some true, req_ele := some true,
    req_jets := some true, req_softmu := some true, req_mujet := some true,
    req_Wmass := some true, req_dilepveto := some true,
    req_QCDveto := some true, req_pTratio := some true }

/-- A passing event with two selected jets. -/
def evA : CtagEv :=
  { genWeight := 1, reqs := passReqs, weight := 1, osss := 1,
    sjets := [jA, jA], mujet := jA }

/-- A passing event with a single selected jet. -/
def evB : CtagEv :=
  { genWeight := 1, reqs := passReqs, weight := 1, osss := 1,
    sjets := [jA], mujet := jA }

/-- A passing event whose muon jet has a negative discriminant. -/
def evNeg : CtagEv :=
  { genWeight := 1, reqs := passReqs, weight := 1, osss := 1,
    sjets := [jNeg, jNeg], mujet := jNeg }

/-- A constant unit scale-factor table. -/
def sfOne : String → ℚ → ℚ → ℚ → ℚ := fun _ _ _ _ => 1

/-- A transformation that flips the trigger requirement of an event but
keeps its generator weight: used to show sumw ignores the selection. -/
def flipTrig (e : CtagEv) : CtagEv :=
  { e with reqs := { e.reqs with req_trig := some false } }

/-- Concrete weight-registration input with a non-unit generator weight. -/
def wIn : CtagWeightIn :=
  { genWeight := [2], puweight := [3], lep1sf := [4], lep2sf := [5],
    event_level := [true] }

/-- A one-event batch whose only muon fails the pt cut. -/
def bLowPt : TtdBatch :=
  { Muon := [[some { pt := 20, idiso := true }]], Electron := [[]],
    Jet := [[]], run := [1] }

/-- The noSF fill produced by the muon jet of evNeg. -/
def fNeg : Fill := { flav := 5, syst := ("noSF"), discr := -(1 / 5), weight := 1 }

lemma fillNone_eq_true (x : Option Bool) : fillNone x = true ↔ x = some true := by
  cases x with
  | none => simp [fillNone]
  | some b => cases b <;> simp [fillNone]

lemma akAnd_eq_some_true (x y : Option Bool) :
    akAnd x y = some true ↔ (x = some true ∧ y = some true) := by
  cases x with
  | none => simp [akAnd]
  | some a =>
    cases y with
    | none => simp [akAnd]
    | some b => cases a <;> cases b <;> simp [akAnd]

/-- C1: the final event_level mask is the AND of all per-event
requirements with missing treated as False: in both workflows the mask is
True exactly when every requirement is some true, hence False whenever
any single requirement is False or missing. -/
theorem eventMask_and_law :
    (∀ rq : CtagReqs, ctagEventLevel rq = true ↔
      (rq.req_trig = some true ∧ rq.req_lumi = some true ∧
       rq.req_ele = some true ∧ rq.req_jets = some true ∧
       rq.req_softmu = some true ∧ rq.req_mujet = some true ∧
       rq.req_Wmass = some true ∧ rq.req_dilepveto = some true ∧
       rq.req_QCDveto = some true ∧ rq.req_pTratio = some true)) ∧
    (∀ rq : TtdReqs, ttdEventLevel rq = true ↔
      (rq.req_trig = some true ∧ rq.req_lumi = some true ∧
       rq.req_muon = some true ∧ rq.req_ele = some true ∧
       rq.req_jets = some true ∧ rq.req_opposite_charge = some true)) := by
  constructor
  · intro rq
    simp [ctagEventLevel, fillNone_eq_true, akAnd_eq_some_true, and_assoc]
  · intro rq
    simp [ttdEventLevel, fillNone_eq_true, akAnd_eq_some_true, and_assoc]

lemma foldl_orZip_getD (ps : List (List Bool)) (acc : List Bool) (i : Nat)
    (hlen : ∀ t ∈ ps, t.length = acc.length) (hi : i < acc.length) :
    (ps.foldl (fun a t => List.zipWith (fun x y => x || y) a t) acc).getD i false
      = (acc.getD i false || ps.any (fun t => t.getD i false)) := by
  induction ps generalizing acc with
  | nil => simp
  | cons hd tl ih =>
    have hhd : hd.length = acc.length := hlen hd (by simp)
    have hzlen : (List.zipWith (fun x y => x || y) acc hd).length = acc.length := by
      rw [List.length_zipWith]; omega
    rw [List.foldl_cons, ih _ (by intro t ht; rw [hzlen]; exact hlen t (by simp [ht]))
      (by omega)]
    have hacc : (List.zipWith (fun x y => x || y) acc hd).getD i false
        = (acc.getD i false || hd.getD i false) := by
      rw [List.getD_eq_getElem _ _ (by omega), List.getD_eq_getElem _ _ hi,
        List.getD_eq_getElem _ _ (by omega), List.getElem_zipWith]
    rw [hacc, List.any_cons, Bool.or_assoc]

/-- C2: the HLT block raises exactly when every requested trigger path is
absent from the batch schema; otherwise it returns the
some-paths-missing diagnostic flag together with req_trig, and req_trig
is the per-event OR of the present paths. -/
theorem trigger_partial_degradation :
    (∀ (n : Nat) (trigs : List (Option (List Bool))),
      (∃ m, processHLT n trigs = Except.error m) ↔ ∀ t ∈ trigs, t = none) ∧
    (∀ (n : Nat) (trigs : List (Option (List Bool))),
      (∃ t ∈ trigs, t ≠ none) →
        processHLT n trigs =
          Except.ok (trigs.any (fun t => t.isNone), reqTrig n (trigs.filterMap id))) ∧
    (∀ (n : Nat) (present : List (List Bool)),
      (∀ t ∈ present, t.length = n) → ∀ i, i < n →
        (reqTrig n present).getD i false = present.any (fun t => t.getD i false)) := by
  refine ⟨?_, ?_, ?_⟩
  · intro n trigs
    by_cases h : trigs.all (fun t => t.isNone) = true
    · simp only [processHLT, if_pos h]
      simp only [List.all_eq_true, Option.isNone_iff_eq_none] at h
      exact ⟨fun _ => h, fun _ => ⟨("HLT paths are all invalid"), rfl⟩⟩
    · simp only [processHLT, if_neg h]
      simp only [List.all_eq_true, Option.isNone_iff_eq_none] at h
      exact ⟨fun ⟨m, hm⟩ => absurd hm (by simp), fun hall => absurd hall h⟩
  · intro n trigs h
    have : ¬ trigs.all (fun t => t.isNone) = true := by
      simp only [List.all_eq_true, Option.isNone_iff_eq_none]
      obtain ⟨t, ht, hne⟩ := h
      exact fun hall => hne (hall t ht)
    simp [processHLT, this]
  · intro n present hlen i hi
    have := foldl_orZip_getD present (List.replicate n false) i
      (by intro t ht; rw [List.length_replicate]; exact hlen t ht)
      (by rw [List.length_replicate]; exact hi)
    rw [reqTrig, this, List.getD_eq_getElem _ _ (by rw [List.length_replicate]; exact hi)]
    simp

/-- Witness for C2 at a concrete input: one present path of two requested,
so processing continues with the diagnostic flag set and req_trig is the
OR of the single present path. -/
theorem trigger_partial_degradation_witness :
    processHLT 2 [some [true, false], none] =
      Except.ok ([some ([true, false] : List Bool), none].any (fun t => t.isNone),
        reqTrig 2 ([some [true, false], none].filterMap id)) ∧
    (reqTrig 2 [[true, false]]).getD 0 false
      = [[true, false]].any (fun t => t.getD 0 false) := by
  exact ⟨trigger_partial_degradation.2.1 2 [some [true, false], none]
      ⟨some [true, false], by simp⟩,
    trigger_partial_degradation.2.2 2 [[true, false]] (by decide) 0 (by decide)⟩

lemma flatten_cons {α : Type} (x : List α) (xs : List (List α)) :
    flatten (x :: xs) = x ++ flatten xs := rfl

lemma flatten_append {α : Type} (xs ys : List (List α)) :
    flatten (xs ++ ys) = flatten xs ++ flatten ys := by
  induction xs with
  | nil => rfl
  | cons h t ih => simp [flatten_cons, ih, List.append_assoc]

lemma mem_flatten {α : Type} {a : α} {xss : List (List α)} :
    a ∈ flatten xss ↔ ∃ l ∈ xss, a ∈ l := by
  induction xss with
  | nil => simp [flatten]
  | cons x xs ih => simp [flatten_cons, ih]

lemma binWeight_append (lo hi : ℚ) (l1 l2 : List Fill) :
    binWeight lo hi (l1 ++ l2) = binWeight lo hi l1 + binWeight lo hi l2 := by
  simp [binWeight, List.filter_append]

lemma kbinWeight_append (lo hi : ℚ) (l1 l2 : List KFill) :
    kbinWeight lo hi (l1 ++ l2) = kbinWeight lo hi l1 + kbinWeight lo hi l2 := by
  simp [kbinWeight, List.filter_append]

lemma zipWith_map_same {α β γ δ : Type} (f : β → γ → δ) (g1 : α → β) (g2 : α → γ)
    (l : List α) :
    List.zipWith f (l.map g1) (l.map g2) = l.map (fun x => f (g1 x) (g2 x)) := by
  induction l with
  | nil => rfl
  | cons h t ih => simp [ih]

lemma filter_map_eq_nil {α β : Type} {p : β → Bool} {g : α → β} (l : List α)
    (h : ∀ e, p (g e) = false) : (l.map g).filter p = [] := by
  induction l with
  | nil => rfl
  | cons a t ih => simp [h, ih]

lemma filter_map_eq_self {α β : Type} {p : β → Bool} {g : α → β} (l : List α)
    (h : ∀ e, p (g e) = true) : (l.map g).filter p = l.map g := by
  induction l with
  | nil => rfl
  | cons a t ih => simp [h, ih]

lemma selEvents_append (A B : List CtagEv) :
    selEvents (A ++ B) = selEvents A ++ selEvents B := by
  simp [selEvents]

lemma zipWith_one_mul (l : List ℚ) :
    List.zipWith (fun a b => a * b) (List.replicate l.length 1) l = l := by
  induction l with
  | nil => rfl
  | cons h t ih => simp [List.replicate_succ, ih]

/-- C4: sumw is the event count of the whole batch for real data and the
sum of genWeight over the whole batch for simulation, and it is invariant
under any transformation of the events that keeps their generator
weights, in particular under any change of the selection requirements. -/
theorem sumw_whole_batch :
    (∀ evs : List CtagEv, sumw true evs = (evs.length : ℚ)) ∧
    (∀ evs : List CtagEv, sumw false evs = (evs.map (fun e => e.genWeight)).sum) ∧
    (∀ (r : Bool) (g : CtagEv → CtagEv), (∀ e, (g e).genWeight = e.genWeight) →
      ∀ evs : List CtagEv, sumw r (evs.map g) = sumw r evs) := by
  refine ⟨fun evs => rfl, fun evs => rfl, ?_⟩
  intro r g hg evs
  cases r with
  | true => simp [sumw]
  | false =>
    simp only [sumw, Bool.false_eq_true, if_false, List.map_map]
    have : evs.map (fun e => (g e).genWeight) = evs.map (fun e => e.genWeight) :=
      List.map_congr_left (fun e _ => hg e)
    rw [show ((fun e => e.genWeight) ∘ g) = fun e => (g e).genWeight from rfl, this]

/-- Witness for C4: flipping the trigger requirement of every event, and
with it the selection mask, leaves sumw unchanged. -/
theorem sumw_whole_batch_witness :
    sumw false ([evA, evB].map flipTrig) = sumw false [evA, evB] ∧
    sumw false [evA, evB] = 2 :=
  ⟨sumw_whole_batch.2.2 false flipTrig (fun e => rfl) [evA, evB],
   by norm_num [sumw, evA, evB]⟩

/-- C9 (amended): for a real-data batch no weight component at all is
registered and the per-event weight product is all ones; for simulated
data with corrections disabled only genweight is registered and the
product equals the bare generator weight; for simulated data with
corrections the four components are genweight, puweight, lep1sf, lep2sf;
and for real data, or with corrections disabled, the discriminant fills
do not depend on the scale-factor table at all. -/
theorem weights_registration_amended :
    (∀ (c : Bool) (n : Nat) (inp : CtagWeightIn),
      (ctagWeights true c n inp).components = [] ∧
      (ctagWeights true c n inp).weight = List.replicate n 1) ∧
    (∀ (n : Nat) (inp : CtagWeightIn),
      (ctagWeights false false n inp).components = [(("genweight"), inp.genWeight)]) ∧
    (∀ (n : Nat) (inp : CtagWeightIn), inp.genWeight.length = n →
      (ctagWeights false false n inp).weight = inp.genWeight) ∧
    (∀ (n : Nat) (inp : CtagWeightIn),
      (ctagWeights false true n inp).components.map Prod.fst =
        [("genweight"), ("puweight"), ("lep1sf"), ("lep2sf")]) ∧
    (∀ (c : Bool) (sf sf2 : String → ℚ → ℚ → ℚ → ℚ) (evs : List CtagEv),
      fillsDeepFlavCvL0 true c sf evs = fillsDeepFlavCvL0 true c sf2 evs) ∧
    (∀ (sf sf2 : String → ℚ → ℚ → ℚ → ℚ) (evs : List CtagEv),
      fillsDeepFlavCvL0 false false sf evs = fillsDeepFlavCvL0 false false sf2 evs) := by
  refine ⟨?_, ?_, ?_, ?_, ?_, ?_⟩
  · intro c n inp
    cases c <;> exact ⟨rfl, rfl⟩
  · intro n inp; rfl
  · intro n inp h
    show List.zipWith (fun a b => a * b) (List.replicate n 1) inp.genWeight
      = inp.genWeight
    rw [← h]; exact zipWith_one_mul inp.genWeight
  · intro n inp; rfl
  · intro c sf sf2 evs
    cases c <;> rfl
  · intro sf sf2 evs; rfl

/-- Counterexample to C9 as stated: a simulated batch with corrections
disabled still registers the genweight component, and its per-event
weight product equals the generator weight 2 rather than defaulting
to 1. -/
theorem weights_registration_counterexample :
    (ctagWeights false false 1 wIn).components.map Prod.fst = [("genweight")] ∧
    (ctagWeights false false 1 wIn).weight = [2] ∧ ((2 : ℚ) ≠ 1) := by
  refine ⟨rfl, ?_, by norm_num⟩
  show List.zipWith (fun a b => a * b) (List.replicate 1 1) wIn.genWeight = [2]
  norm_num [wIn, List.replicate]

/-- Witness for C9 applied at a concrete input of batch length one. -/
theorem weights_registration_witness :
    (ctagWeights false false 1 wIn).weight = wIn.genWeight :=
  weights_registration_amended.2.2.1 1 wIn (by decide)

/-- Counterexample to C10 as stated: running the ttdilep lepton selection
on a batch whose only muon fails the pt cut changes the batch Muon
collection (it becomes the filtered, padded collection). -/
theorem object_selection_mutation_counterexample :
    (ttdLeptonSelection bLowPt).1.Muon ≠ bLowPt.Muon := by decide

/-- C10 (amended): the ttdilep lepton selection leaves every batch field
except Muon and Electron unchanged, and overwrites those two with the
filtered, pad_none-padded collections. -/
theorem object_selection_frame_amended (b : TtdBatch) :
    (ttdLeptonSelection b).1.Jet = b.Jet ∧
    (ttdLeptonSelection b).1.run = b.run ∧
    (ttdLeptonSelection b).1.Muon =
      b.Muon.map (fun ms => pad_none 1 (ms.filter muonCut)) ∧
    (ttdLeptonSelection b).1.Electron =
      b.Electron.map (fun es => pad_none 1 (es.filter electronCut)) :=
  ⟨rfl, rfl, rfl, rfl⟩

lemma flatten_nil {α : Type} : flatten ([] : List (List α)) = [] := rfl

/-- C5 (amended): the subleading-jet discriminant histogram is filled for
a batch exactly when the batch has selected events and every selected
event has at least two jets; it is skipped whenever any selected event
has fewer, not only when no event reaches the multiplicity. -/
theorem subleading_guard_amended (r c : Bool) (sf : String → ℚ → ℚ → ℚ → ℚ)
    (evs : List CtagEv) :
    fillsDeepFlavCvL1 r c sf evs ≠ [] ↔
      (selEvents evs ≠ [] ∧ ∀ e ∈ selEvents evs, 1 < e.sjets.length) := by
  simp only [fillsDeepFlavCvL1, sfKeysSubleading, List.map_nil, flatten_nil, ite_self,
    List.append_nil]
  by_cases hg : ((selEvents evs).map (fun e => e.sjets.length)).all
      (fun i => decide (1 < i)) = true
  · rw [if_pos hg]
    have hforall : ∀ e ∈ selEvents evs, 1 < e.sjets.length := by
      intro e he
      have h2 := List.all_eq_true.mp hg e.sjets.length (List.mem_map.mpr ⟨e, he, rfl⟩)
      simpa using h2
    constructor
    · intro h
      refine ⟨fun hnil => h ?_, hforall⟩
      rw [hnil]; rfl
    · rintro ⟨h, _⟩ hmapnil
      exact h (List.map_eq_nil_iff.mp hmapnil)
  · rw [if_neg hg]
    constructor
    · intro h; exact absurd rfl h
    · rintro ⟨hne, hforall⟩
      refine absurd (List.all_eq_true.mpr ?_) hg
      intro x hx
      obtain ⟨e, he, rfl⟩ := List.mem_map.mp hx
      simpa using hforall e he

/-- Counterexample to C5 as stated: in the batch [evA, evB] one event
does have two jets, yet the subleading-jet histogram receives no fill at
all because the other selected event has only one jet. -/
theorem subleading_guard_counterexample :
    (∃ e ∈ [evA, evB], 1 < e.sjets.length) ∧
    fillsDeepFlavCvL1 false true sfOne [evA, evB] = [] := by
  decide

lemma jetPt_zip_eq (r : Bool) (sel : List CtagEv) :
    List.zipWith (fun p w => ({ flav := p.1, value := p.2, weight := w } : KFill))
      (List.zipWith (fun fl v => (fl, v))
        (flatten (sel.map (fun e => e.sjets.map (fun j => genflavor r j))))
        (flatten (sel.map (fun e => e.sjets.map (fun j => j.pt)))))
      (flatten (broadcast_arrays (sel.map (fun e => e.weight * e.osss))
        (sel.map (fun e => e.sjets.map (fun j => j.pt)))))
    = flatten (sel.map (fun e => e.sjets.map (fun j =>
        ({ flav := genflavor r j, value := j.pt, weight := e.weight * e.osss } : KFill)))) := by
  induction sel with
  | nil => rfl
  | cons e tl ih =>
    simp only [List.map_cons, broadcast_arrays, List.zipWith_cons_cons, flatten_cons] at ih ⊢
    rw [List.zipWith_append _ _ _ _ _ (by simp)]
    rw [List.zipWith_append _ _ _ _ _ (by simp [List.length_zipWith])]
    rw [zipWith_map_same, List.map_map, zipWith_map_same, ih]
    rfl

lemma fillsJetPt_perEvent (r : Bool) (evs : List CtagEv) :
    fillsJetPt r evs = flatten ((selEvents evs).map (fun e => e.sjets.map (fun j =>
      ({ flav := genflavor r j, value := j.pt, weight := e.weight * e.osss } : KFill)))) :=
  jetPt_zip_eq r (selEvents evs)

/-- C8: for the ragged per-jet histogram the per-event weight array is
broadcast to the jagged jet shape before filling, so the fill list is
exactly the per-event list of jets each paired with that event scalar
weight. -/
theorem ragged_weight_broadcast (r : Bool) (evs : List CtagEv) :
    fillsJetPt r evs = flatten ((selEvents evs).map (fun e => e.sjets.map (fun j =>
      ({ flav := genflavor r j, value := j.pt, weight := e.weight * e.osss } : KFill)))) :=
  fillsJetPt_perEvent r evs

lemma binWeight_flatten_map_append (lo hi : ℚ) (keys : List String)
    (u v : String → List Fill) :
    binWeight lo hi (flatten (keys.map (fun s => u s ++ v s))) =
      binWeight lo hi (flatten (keys.map u)) + binWeight lo hi (flatten (keys.map v)) := by
  induction keys with
  | nil => simp [flatten, binWeight]
  | cons k tl ih =>
    simp only [List.map_cons, flatten_cons, binWeight_append, ih]
    ring

lemma fills1_of_guard (r c : Bool) (sf : String → ℚ → ℚ → ℚ → ℚ) (evs : List CtagEv)
    (h : ∀ e ∈ selEvents evs, 1 < e.sjets.length) :
    fillsDeepFlavCvL1 r c sf evs = (selEvents evs).map (fun e =>
      ({ flav := genflavor r (e.sjets.getD 1 default), syst := ("noSF"),
         discr := clipDiscr (e.sjets.getD 1 default).btagDeepFlavCvL,
         weight := e.weight * e.osss } : Fill)) := by
  have hg : ((selEvents evs).map (fun e => e.sjets.length)).all
      (fun i => decide (1 < i)) = true := by
    refine List.all_eq_true.mpr ?_
    intro x hx
    obtain ⟨e, he, rfl⟩ := List.mem_map.mp hx
    simpa using h e he
  simp only [fillsDeepFlavCvL1, sfKeysSubleading, List.map_nil, flatten_nil, ite_self,
    List.append_nil]
  rw [if_pos hg]

/-- C3 (amended): processing the concatenation of two batches agrees with
merging the separately processed outputs for sumw, for every bin of the
per-event broadcast histograms, and for every bin of the muon-jet
discriminant histogram; for the guard-protected subleading-jet histogram
it agrees whenever every selected event of the concatenation has at
least two jets. -/
theorem batch_merge_additivity_amended :
    (∀ (r : Bool) (A B : List CtagEv), sumw r (A ++ B) = sumw r A + sumw r B) ∧
    (∀ (r : Bool) (A B : List CtagEv) (lo hi : ℚ),
      kbinWeight lo hi (fillsJetPt r (A ++ B)) =
        kbinWeight lo hi (fillsJetPt r A) + kbinWeight lo hi (fillsJetPt r B)) ∧
    (∀ (r c : Bool) (sf : String → ℚ → ℚ → ℚ → ℚ) (A B : List CtagEv) (lo hi : ℚ),
      binWeight lo hi (fillsDeepFlavCvL0 r c sf (A ++ B)) =
        binWeight lo hi (fillsDeepFlavCvL0 r c sf A) +
        binWeight lo hi (fillsDeepFlavCvL0 r c sf B)) ∧
    (∀ (r c : Bool) (sf : String → ℚ → ℚ → ℚ → ℚ) (A B : List CtagEv) (lo hi : ℚ),
      (∀ e ∈ selEvents (A ++ B), 1 < e.sjets.length) →
      binWeight lo hi (fillsDeepFlavCvL1 r c sf (A ++ B)) =
        binWeight lo hi (fillsDeepFlavCvL1 r c sf A) +
        binWeight lo hi (fillsDeepFlavCvL1 r c sf B)) := by
  refine ⟨?_, ?_, ?_, ?_⟩
  · intro r A B
    cases r with
    | true => simp [sumw]
    | false => simp [sumw]
  · intro r A B lo hi
    rw [fillsJetPt_perEvent, fillsJetPt_perEvent, fillsJetPt_perEvent,
      selEvents_append, List.map_append, flatten_append, kbinWeight_append]
  · intro r c sf A B lo hi
    simp only [fillsDeepFlavCvL0, selEvents_append, List.map_append]
    cases hc : (!r && c) with
    | false => simp [binWeight_append]
    | true =>
      simp only [if_pos rfl]
      simp [binWeight_append, binWeight_flatten_map_append]
      ring
  · intro r c sf A B lo hi hall
    have hA : ∀ e ∈ selEvents A, 1 < e.sjets.length := fun e he =>
      hall e (by rw [selEvents_append]; exact List.mem_append.mpr (Or.inl he))
    have hB : ∀ e ∈ selEvents B, 1 < e.sjets.length := fun e he =>
      hall e (by rw [selEvents_append]; exact List.mem_append.mpr (Or.inr he))
    rw [fills1_of_guard r c sf _ hall, fills1_of_guard r c sf _ hA,
      fills1_of_guard r c sf _ hB, selEvents_append, List.map_append, binWeight_append]

/-- Counterexample to C3 as stated: one batch with a two-jet event and
one with a one-jet event; processed together the subleading-jet
histogram is empty, while the merge of the separate outputs has one
entry in the bin [0, 2). -/
theorem batch_merge_counterexample :
    binWeight 0 2 (fillsDeepFlavCvL1 false true sfOne ([evA] ++ [evB])) ≠
      binWeight 0 2 (fillsDeepFlavCvL1 false true sfOne [evA]) +
      binWeight 0 2 (fillsDeepFlavCvL1 false true sfOne [evB]) := by
  have hsel : selEvents [evA] = [evA] := by decide
  have hA : fillsDeepFlavCvL1 false true sfOne [evA] =
      [{ flav := genflavor false (evA.sjets.getD 1 default), syst := ("noSF"),
         discr := clipDiscr (evA.sjets.getD 1 default).btagDeepFlavCvL,
         weight := evA.weight * evA.osss }] := by
    rw [fills1_of_guard false true sfOne [evA] (by decide), hsel]
    simp
  have hB : fillsDeepFlavCvL1 false true sfOne [evB] = [] := by decide
  have hAB : fillsDeepFlavCvL1 false true sfOne ([evA] ++ [evB]) = [] := by decide
  rw [hA, hB, hAB]
  norm_num [binWeight, clipDiscr, evA, jA, genflavor, List.getD]

/-- Witness for C3 at concrete batches of two-jet events, where the
multiplicity guard holds for the concatenation. -/
theorem batch_merge_additivity_witness :
    binWeight 0 2 (fillsDeepFlavCvL1 false true sfOne ([evA] ++ [evA])) =
      binWeight 0 2 (fillsDeepFlavCvL1 false true sfOne [evA]) +
      binWeight 0 2 (fillsDeepFlavCvL1 false true sfOne [evA]) :=
  batch_merge_additivity_amended.2.2.2 false true sfOne [evA] [evA] 0 2 (by decide)

/-- C6: every discriminant histogram fill stores the clipped discriminant
(a value below 0 becomes exactly -0.2 = -(1/5), a value at or above 0
passes unchanged), while every systematic fill weight applies the
scale-factor table to the unclipped discriminant values, in both
workflows. -/
theorem discr_clip_sf_unclipped :
    (∀ d : ℚ, (d < 0 → clipDiscr d = -(1 / 5)) ∧ (0 ≤ d → clipDiscr d = d)) ∧
    (∀ (r c : Bool) (sf : String → ℚ → ℚ → ℚ → ℚ) (evs : List CtagEv),
      ∀ f ∈ fillsDeepFlavCvL0 r c sf evs, ∃ e, e ∈ selEvents evs ∧
        f.discr = clipDiscr e.mujet.btagDeepFlavCvL ∧
        (f.syst = ("noSF") → f.weight = e.weight * e.osss) ∧
        (f.syst ≠ ("noSF") → f.weight = e.weight *
          sf f.syst e.mujet.hadronFlavour e.mujet.btagDeepFlavCvL
            e.mujet.btagDeepFlavCvB * e.osss)) ∧
    (∀ (i : Nat) (r c : Bool) (sf : String → ℚ → ℚ → ℚ → ℚ) (evs : List TtdEv),
      ∀ f ∈ fillsTtdDeepFlavCvL i r c sf evs, ∃ e, e ∈ ttdSel evs ∧
        f.discr = clipDiscr ((e.sjets.take 2).getD i default).btagDeepFlavCvL ∧
        (f.syst = ("noSF") → f.weight = e.weight) ∧
        (f.syst ≠ ("noSF") → f.weight = e.weight *
          sf f.syst ((e.sjets.take 2).getD i default).hadronFlavour
            ((e.sjets.take 2).getD i default).btagDeepFlavCvL
            ((e.sjets.take 2).getD i default).btagDeepFlavCvB)) := by
  refine ⟨?_, ?_, ?_⟩
  · intro d
    exact ⟨fun h => by simp [clipDiscr, h], fun h => by simp [clipDiscr, not_lt.mpr h]⟩
  · intro r c sf evs f hf
    simp only [fillsDeepFlavCvL0, List.mem_append] at hf
    rcases hf with hf | hf
    · obtain ⟨e, he, rfl⟩ := List.mem_map.mp hf
      exact ⟨e, he, rfl, fun _ => rfl, fun hne => absurd rfl hne⟩
    · by_cases h2 : (!r && c) = true
      · rw [if_pos h2] at hf
        rw [mem_flatten] at hf
        obtain ⟨l, hl, hfl⟩ := hf
        obtain ⟨s, hs, rfl⟩ := List.mem_map.mp hl
        obtain ⟨e, he, rfl⟩ := List.mem_map.mp hfl
        refine ⟨e, he, rfl, ?_, fun _ => rfl⟩
        intro hsyst
        have hs2 : s = ("noSF") := hsyst
        subst hs2
        simp [sfKeys] at hs
      · rw [if_neg h2] at hf
        simp at hf
  · intro i r c sf evs f hf
    simp only [fillsTtdDeepFlavCvL, List.mem_append] at hf
    rcases hf with hf | hf
    · obtain ⟨e, he, rfl⟩ := List.mem_map.mp hf
      exact ⟨e, he, rfl, fun _ => rfl, fun hne => absurd rfl hne⟩
    · by_cases h2 : (!r && c) = true
      · rw [if_pos h2] at hf
        rw [mem_flatten] at hf
        obtain ⟨l, hl, hfl⟩ := hf
        obtain ⟨s, hs, rfl⟩ := List.mem_map.mp hl
        obtain ⟨e, he, rfl⟩ := List.mem_map.mp hfl
        refine ⟨e, he, rfl, ?_, fun _ => rfl⟩
        intro hsyst
        have hs2 : s = ("noSF") := hsyst
        subst hs2
        simp [sfKeys] at hs
      · rw [if_neg h2] at hf
        simp at hf

/-- Witness for C6: the noSF fill of a muon jet with discriminant -1 is
in the fill list, stores exactly -(1/5), and carries the bare weight. -/
theorem discr_clip_sf_unclipped_witness :
    ∃ e, e ∈ selEvents [evNeg] ∧
      fNeg.discr = clipDiscr e.mujet.btagDeepFlavCvL ∧
      (fNeg.syst = ("noSF") → fNeg.weight = e.weight * e.osss) ∧
      (fNeg.syst ≠ ("noSF") → fNeg.weight = e.weight *
        sfOne fNeg.syst e.mujet.hadronFlavour e.mujet.btagDeepFlavCvL
          e.mujet.btagDeepFlavCvB * e.osss) := by
  have hsel : selEvents [evNeg] = [evNeg] := by decide
  refine discr_clip_sf_unclipped.2.1 false true sfOne [evNeg] fNeg ?_
  simp only [fillsDeepFlavCvL0, hsel, List.map_cons, List.map_nil]
  refine List.mem_append.mpr (Or.inl ?_)
  norm_num [fNeg, evNeg, jNeg, genflavor, clipDiscr]

/-- C7 (amended): for real data, or for simulation with corrections
disabled, a discriminant histogram receives exactly the noSF fills with
the bare per-event weight; for simulation with corrections enabled the
muon-jet histogram of the eWc channel and the per-jet histograms of the
dilepton channel receive four fills per selected event, the noSF fill
plus one fill per variant SF, SFup, SFdn whose weight multiplies the
per-event weight by that variant scale factor; the eWc subleading-jet
histogram is the exception: its variant dict is empty, so all its fills
are noSF even for simulation with corrections. -/
theorem syst_variant_fills_amended :
    (∀ (c : Bool) (sf : String → ℚ → ℚ → ℚ → ℚ) (evs : List CtagEv),
      fillsDeepFlavCvL0 true c sf evs = (selEvents evs).map (fun e =>
        ({ flav := genflavor true e.mujet, syst := ("noSF"),
           discr := clipDiscr e.mujet.btagDeepFlavCvL,
           weight := e.weight * e.osss } : Fill))) ∧
    (∀ (sf : String → ℚ → ℚ → ℚ → ℚ) (evs : List CtagEv),
      fillsDeepFlavCvL0 false false sf evs = (selEvents evs).map (fun e =>
        ({ flav := genflavor false e.mujet, syst := ("noSF"),
           discr := clipDiscr e.mujet.btagDeepFlavCvL,
           weight := e.weight * e.osss } : Fill))) ∧
    (∀ (sf : String → ℚ → ℚ → ℚ → ℚ) (evs : List CtagEv),
      (fillsDeepFlavCvL0 false true sf evs).length = 4 * (selEvents evs).length) ∧
    (∀ (sf : String → ℚ → ℚ → ℚ → ℚ) (evs : List CtagEv) (s : String), s ∈ sfKeys →
      (fillsDeepFlavCvL0 false true sf evs).filter (fun f => decide (f.syst = s)) =
        (selEvents evs).map (fun e =>
          ({ flav := genflavor false e.mujet, syst := s,
             discr := clipDiscr e.mujet.btagDeepFlavCvL,
             weight := e.weight * sf s e.mujet.hadronFlavour
               e.mujet.btagDeepFlavCvL e.mujet.btagDeepFlavCvB * e.osss } : Fill))) ∧
    (∀ (sf : String → ℚ → ℚ → ℚ → ℚ) (evs : List CtagEv),
      (fillsDeepFlavCvL0 false true sf evs).filter
          (fun f => decide (f.syst = ("noSF"))) =
        (selEvents evs).map (fun e =>
          ({ flav := genflavor false e.mujet, syst := ("noSF"),
             discr := clipDiscr e.mujet.btagDeepFlavCvL,
             weight := e.weight * e.osss } : Fill))) ∧
    (∀ (r c : Bool) (sf : String → ℚ → ℚ → ℚ → ℚ) (evs : List CtagEv),
      ∀ f ∈ fillsDeepFlavCvL1 r c sf evs, f.syst = ("noSF")) ∧
    (∀ (i : Nat) (sf : String → ℚ → ℚ → ℚ → ℚ) (evs : List TtdEv),
      (fillsTtdDeepFlavCvL i false true sf evs).length = 4 * (ttdSel evs).length) ∧
    (∀ (i : Nat) (c : Bool) (sf : String → ℚ → ℚ → ℚ → ℚ) (evs : List TtdEv),
      fillsTtdDeepFlavCvL i true c sf evs = (ttdSel evs).map (fun e =>
        ({ flav := genflavor true ((e.sjets.take 2).getD i default), syst := ("noSF"),
           discr := clipDiscr ((e.sjets.take 2).getD i default).btagDeepFlavCvL,
           weight := e.weight } : Fill))) := by
  refine ⟨?_, ?_, ?_, ?_, ?_, ?_, ?_, ?_⟩
  · intro c sf evs
    simp [fillsDeepFlavCvL0]
  · intro sf evs
    simp [fillsDeepFlavCvL0]
  · intro sf evs
    simp [fillsDeepFlavCvL0, sfKeys, flatten_cons, flatten_nil]
    omega
  · intro sf evs s hs
    have hcond : (!false && true) = true := rfl
    simp only [fillsDeepFlavCvL0, sfKeys, List.map_cons, List.map_nil, flatten_cons,
      flatten_nil, List.append_nil, if_pos hcond, List.filter_append]
    simp only [sfKeys, List.mem_cons, List.not_mem_nil, or_false] at hs
    rcases hs with rfl | rfl | rfl
    · rw [filter_map_eq_nil _ (fun e => rfl), filter_map_eq_self _ (fun e => rfl),
        filter_map_eq_nil _ (fun e => rfl), filter_map_eq_nil _ (fun e => rfl)]
      simp
    · rw [filter_map_eq_nil _ (fun e => rfl), filter_map_eq_nil _ (fun e => rfl),
        filter_map_eq_self _ (fun e => rfl), filter_map_eq_nil _ (fun e => rfl)]
      simp
    · rw [filter_map_eq_nil _ (fun e => rfl), filter_map_eq_nil _ (fun e => rfl),
        filter_map_eq_nil _ (fun e => rfl), filter_map_eq_self _ (fun e => rfl)]
      simp
  · intro sf evs
    have hcond : (!false && true) = true := rfl
    simp only [fillsDeepFlavCvL0, sfKeys, List.map_cons, List.map_nil, flatten_cons,
      flatten_nil, List.append_nil, if_pos hcond, List.filter_append]
    rw [filter_map_eq_self _ (fun e => rfl), filter_map_eq_nil _ (fun e => rfl),
      filter_map_eq_nil _ (fun e => rfl), filter_map_eq_nil _ (fun e => rfl)]
    simp
  · intro r c sf evs f hf
    simp only [fillsDeepFlavCvL1, sfKeysSubleading, List.map_nil, flatten_nil, ite_self,
      List.append_nil] at hf
    by_cases hg : ((selEvents evs).map (fun e => e.sjets.length)).all
        (fun i => decide (1 < i)) = true
    · rw [if_pos hg] at hf
      obtain ⟨e, he, rfl⟩ := List.mem_map.mp hf
      rfl
    · rw [if_neg hg] at hf
      simp at hf
  · intro i sf evs
    simp [fillsTtdDeepFlavCvL, sfKeys, flatten_cons, flatten_nil]
    omega
  · intro i c sf evs
    simp [fillsTtdDeepFlavCvL]

/-- Counterexample to C7 as stated: a simulated batch with corrections
enabled whose selected event has two jets, so the subleading-jet
discriminant histogram branch runs, yet the only fill it produces is
the noSF one: no fill per systematic variant occurs. -/
theorem syst_variant_fills_counterexample :
    (fillsDeepFlavCvL1 false true sfOne [evA]).map (fun f => f.syst) = [("noSF")] := by
  decide

/-- Witness for C7: the SF-variant fills of the muon-jet histogram at a
concrete one-event batch. -/
theorem syst_variant_fills_witness :
    (fillsDeepFlavCvL0 false true sfOne [evA]).filter
        (fun f => decide (f.syst = ("SF"))) =
      (selEvents [evA]).map (fun e =>
        ({ flav := genflavor false e.mujet, syst := ("SF"),
           discr := clipDiscr e.mujet.btagDeepFlavCvL,
           weight := e.weight * sfOne ("SF") e.mujet.hadronFlavour
             e.mujet.btagDeepFlavCvL e.mujet.btagDeepFlavCvB * e.osss } : Fill)) :=
  syst_variant_fills_amended.2.2.2.1 sfOne [evA] ("SF") (by decide)

end BTV
